import Mathlib

/-!
Verification of the timetable-normalization core of `timetable_extractor.py`.

The embedding models the pure logic of `process_timetable`:
* a sheet is a grid of cells (`List (List Cell)`), a cell being absent
  (pandas `NaN`), a Python string, or another scalar kept via its `str()` form;
* the Grid Locator scans at most the first 20 rows of column 0 for a cell
  equal to the marker string (source lines 28-36);
* the Row Aggregator walks the rows after the header, starts a new record at
  every row whose column-1 cell is a string matching the regex
  `^\d{2}:\d{2}-\d{2}:\d{2}$`, folds the day columns (2..width-1) of the
  primary row and the following non-matching rows, and skips past the group
  (source lines 72-121).

The walk is written with explicit fuel (`walkAux`); `aggregate` supplies fuel
equal to the number of rows, which is shown sufficient below.
-/

/-- A spreadsheet cell as pandas presents it: `blank` is `NaN`/absent
(`pd.notna` false), `text s` is a Python `str`, `num s` is any other scalar
recorded by its `str()` rendering. -/
inductive Cell where
  | blank : Cell
  | text : String → Cell
  | num : String → Cell
deriving DecidableEq

/-- `str(cell)` guarded by `pd.notna`: `none` for a blank cell, otherwise the
string form of the value. -/
def cellStr : Cell → Option String
  | Cell.blank => none
  | Cell.text s => some s
  | Cell.num s => some s

/-- The 11-character core of the regex `\d{2}:\d{2}-\d{2}:\d{2}`.
Python `\d` also covers non-ASCII decimal digits; the model uses ASCII
digits, which is the range exercised by the data. -/
def timeCore : List Char → Bool
  | [a, b, ':', c, d, '-', e, f, ':', g, h] =>
      a.isDigit && b.isDigit && c.isDigit && d.isDigit &&
      e.isDigit && f.isDigit && g.isDigit && h.isDigit
  | _ => false

/-- `re.match(r"^\d{2}:\d{2}-\d{2}:\d{2}$", s)`: Python `$` also matches just
before one trailing newline, so a string that is the 11-character time range
followed by a single `\n` matches as well. -/
def matchesTimePattern (s : String) : Bool :=
  timeCore s.data || (s.data.getLast? == some '\n' && timeCore s.data.dropLast)

/-- Column-1 test of source lines 75 and 88-90: the cell is non-null, is a
Python string, and matches the time regex. -/
def isTimeCell : Cell → Bool
  | Cell.text s => matchesTimePattern s
  | _ => false

/-- A row starts a new timeslot iff its column-1 cell passes `isTimeCell`. -/
def rowIsTimeslot (r : List Cell) : Bool :=
  isTimeCell (r.getD 1 Cell.blank)

/-- A continuation row: one that does not start a new timeslot. -/
def isContinuation (r : List Cell) : Bool :=
  !rowIsTimeslot r

/-- Python `s.strip()`: drop leading and trailing whitespace. -/
def pstrip (s : String) : String :=
  String.mk (((s.data.dropWhile Char.isWhitespace).reverse.dropWhile
      Char.isWhitespace).reverse)

/-- Source lines 84-97: for one day column, the values collected over a group
of rows — every non-null cell whose string form has non-empty `strip()`,
kept verbatim (the code appends `value`, not `value.strip()`), in row order. -/
def collectCol (group : List (List Cell)) (col : Nat) : List String :=
  group.filterMap fun r =>
    match cellStr (r.getD col Cell.blank) with
    | none => none
    | some v => if pstrip v = "" then none else some v

/-- Source line 100: `"\n".join(values)` for one day column over a group. -/
def foldCol (group : List (List Cell)) (col : Nat) : String :=
  String.intercalate "\n" (collectCol group col)

/-- One output record: the period cell (source line 78: the raw column-0 value,
or the string `""` when blank), the time string, and one folded string per day
column. -/
structure Record where
  period : Cell
  time : String
  days : List String
deriving DecidableEq

/-- Source line 78: `period = df.iloc[r, 0] if pd.notna(df.iloc[r, 0]) else ""`. -/
def periodOf (r : List Cell) : Cell :=
  match r.getD 0 Cell.blank with
  | Cell.blank => Cell.text ""
  | c => c

/-- The time string of a timeslot row (source line 77); the enclosing branch
guarantees the cell is a string. -/
def timeTextOf (r : List Cell) : String :=
  match r.getD 1 Cell.blank with
  | Cell.text s => s
  | _ => ""

/-- The record built for a group: primary row `prim`, continuation rows
`cont`, day columns `2 .. W-1` where `W` is the grid width (`df.shape[1]`). -/
def mkRecord (W : Nat) (prim : List Cell) (cont : List (List Cell)) : Record :=
  { period := periodOf prim
    time := timeTextOf prim
    days := (List.range' 2 (W - 2)).map (foldCol (prim :: cont)) }

/-- The row walk of source lines 72-121, with explicit fuel. At a timeslot row
the group is the row plus the maximal run of following continuation rows
(the collect loops of lines 86-97), and the skip loop of lines 112-119 resumes
right after that run; at any other row the walk advances by one. -/
def walkAux (W : Nat) : Nat → List (List Cell) → List Record
  | _, [] => []
  | 0, _ :: _ => []
  | fuel + 1, r :: rs =>
    if rowIsTimeslot r then
      mkRecord W r (rs.takeWhile isContinuation) ::
        walkAux W fuel (rs.dropWhile isContinuation)
    else
      walkAux W fuel rs

/-- The aggregation of the rows below the header: the walk with fuel equal to
the number of rows, which is enough (see `walkAux_eq_of_le`). -/
def aggregate (W : Nat) (rows : List (List Cell)) : List Record :=
  walkAux W rows.length rows

/-- The header marker of source line 30. -/
def markerToken : String := "課節"

/-- Source line 30: the row's column-0 cell is a Python string equal to the
marker. -/
def rowIsMarker (r : List Cell) : Bool :=
  r.getD 0 Cell.blank == Cell.text markerToken

/-- The scan loop of source lines 29-32 with its remaining budget: at most
`limit` rows are inspected, the first match wins. -/
def findStartRowAux : Nat → List (List Cell) → Option Nat
  | _, [] => none
  | 0, _ :: _ => none
  | limit + 1, r :: rs =>
    if rowIsMarker r then some 0 else (findStartRowAux limit rs).map (· + 1)

/-- Source lines 28-32: `for i in range(min(20, len(df)))`, returning the
first row whose column-0 cell equals the marker. -/
def findStartRow (g : List (List Cell)) : Option Nat :=
  findStartRowAux 20 g

/-- The grid width `df.shape[1]`: the longest row. -/
def gridWidth (g : List (List Cell)) : Nat :=
  g.foldr (fun r a => max r.length a) 0

/-- One sheet end to end: locate the header (or skip the sheet, source
lines 34-36), then aggregate everything below it. -/
def processSheet (g : List (List Cell)) : Option (List Record) :=
  match findStartRow g with
  | none => none
  | some s => some (aggregate (gridWidth g) (g.drop (s + 1)))

/-- The per-sheet loop of source line 23: sheets that cannot be located are
skipped, the rest are emitted in source order. -/
def processSheets (gs : List (List (List Cell))) : List (List Record) :=
  gs.filterMap processSheet

/-- Source line 53: `wb.create_sheet(title=sheet_name)` — the output sheet
title is the input sheet name, unchanged. -/
def outputSheetTitle (name : String) : String := name

/-- The characters the spec says are stripped from sheet names. -/
def excelBadChars : List Char := [':', '\\', '/', '?', '*', '[', ']']

/-- Modelled from the spec: the sanitization the spec attributes to the
output sheet name (strip `: \ / ? * [ ]`, truncate to 25 characters); stated
only for comparison with `outputSheetTitle`, the behaviour at source line 53. -/
def sanitizeSpecTitle (name : String) : String :=
  (String.mk (name.data.filter fun c => !excelBadChars.contains c)).take 25

/-- The indices (relative to the row list) at which the walk starts a new
logical period: exactly the timeslot rows. -/
def groupStarts : List (List Cell) → List Nat
  | [] => []
  | r :: rs =>
    if rowIsTimeslot r then 0 :: (groupStarts rs).map (· + 1)
    else (groupStarts rs).map (· + 1)

/-- The continuation rows of the group whose primary row is at index `i`. -/
def contOf (rows : List (List Cell)) (i : Nat) : List (List Cell) :=
  (rows.drop (i + 1)).takeWhile isContinuation

/-- The record the walk builds for the group starting at index `i`. -/
def recordAt (W : Nat) (rows : List (List Cell)) (i : Nat) : Record :=
  mkRecord W (rows.getD i []) (contOf rows i)

/-- The half-open index range `[i, end)` of the group starting at `i`. -/
def spanOf (rows : List (List Cell)) (i : Nat) : Nat × Nat :=
  (i, i + 1 + (contOf rows i).length)

/-- The spans of all groups of a row list. -/
def groupSpans (rows : List (List Cell)) : List (Nat × Nat) :=
  (groupStarts rows).map (spanOf rows)

/-- The index the outer loop of lines 72-121 moves to after handling index
`i`: past the whole group at a timeslot row (lines 112-119), one step
otherwise (line 121). -/
def nextIndex (g : List (List Cell)) (i : Nat) : Nat :=
  if rowIsTimeslot (g.getD i []) then
    i + 1 + ((g.drop (i + 1)).takeWhile isContinuation).length
  else i + 1

/-- A record written back as a grid row, the way lines 102-106 serialize it:
period cell, time string, then the folded day strings. -/
def recToRow (rec : Record) : List Cell :=
  rec.period :: Cell.text rec.time :: rec.days.map Cell.text

/-- Folding a single primary row and then appending further collected values
in order with the same separator: the right-hand operation of the
associativity property. -/
def appendFold (s : String) (vs : List String) : String :=
  if s = "" then String.intercalate "\n" vs
  else String.intercalate "\n" (s :: vs)

/-- Modelled from the spec: the per-day folded value exactly as claim C2
words it — the non-empty whitespace-trimmed texts of the column, joined. -/
def foldColTrimmed (group : List (List Cell)) (col : Nat) : String :=
  String.intercalate "\n"
    ((group.map fun r => pstrip ((cellStr (r.getD col Cell.blank)).getD "")).filter
      fun v => !(v == ""))

/-- The per-day folded value as the amended claim words it: the verbatim
(untrimmed) texts of the cells whose trimmed text is non-empty, joined with
the newline separator. -/
def foldColVerbatim (group : List (List Cell)) (col : Nat) : String :=
  String.intercalate "\n"
    ((group.map fun r => (cellStr (r.getD col Cell.blank)).getD "").filter
      fun v => !(pstrip v == ""))

/-- The primary row of the spec's worked example. -/
def examplePrimRow : List Cell :=
  [Cell.text "3", Cell.text "10:00-10:30", Cell.text "Math", Cell.text "",
   Cell.text "Art", Cell.text "", Cell.text "PE"]

/-- The continuation row of the spec's worked example. -/
def exampleContRow : List Cell :=
  [Cell.text "", Cell.text "", Cell.text "Extra", Cell.text "", Cell.text "",
   Cell.text "", Cell.text ""]

/-- A timeslot row used to exhibit duplicate (period, time) pairs. -/
def dupRow : List Cell :=
  [Cell.text "1", Cell.text "09:00-09:30", Cell.text "A"]

/-- A one-slot table whose single day cell is whitespace-only. -/
def wsRecord : Record :=
  { period := Cell.text "1", time := "09:00-09:30", days := [" "] }

/-- A small grid with the header marker in its second row. -/
def witnessGrid : List (List Cell) :=
  [[Cell.text "x"], [Cell.text "課節", Cell.text "時間"], dupRow]

/-- A grid with no header marker at all. -/
def noMarkerGrid : List (List Cell) :=
  [[Cell.text "nothing"]]

set_option maxRecDepth 10000

lemma walkAux_eq_of_le (W : Nat) :
    ∀ (fuel fuel' : Nat) (rows : List (List Cell)),
      rows.length ≤ fuel → rows.length ≤ fuel' →
      walkAux W fuel rows = walkAux W fuel' rows := by
  intro fuel
  induction fuel with
  | zero =>
    intro fuel' rows h h'
    have : rows = [] := List.eq_nil_of_length_eq_zero (Nat.le_zero.mp h)
    subst this
    cases fuel' <;> rfl
  | succ n ih =>
    intro fuel' rows h h'
    match rows with
    | [] => cases fuel' <;> rfl
    | r :: rs =>
      cases fuel' with
      | zero => simp at h'
      | succ m =>
        have hrs : rs.length ≤ n := by simpa using h
        have hrs' : rs.length ≤ m := by simpa using h'
        have hdrop : (rs.dropWhile isContinuation).length ≤ rs.length :=
          (List.dropWhile_sublist _).length_le
        simp only [walkAux]
        by_cases hr : rowIsTimeslot r
        · simp only [hr, if_true]
          rw [ih m (rs.dropWhile isContinuation) (le_trans hdrop hrs) (le_trans hdrop hrs')]
        · simp only [hr, if_false]
          exact ih m rs hrs hrs'

lemma aggregate_cons (W : Nat) (r : List Cell) (rs : List (List Cell)) :
    aggregate W (r :: rs) =
      if rowIsTimeslot r then
        mkRecord W r (rs.takeWhile isContinuation) ::
          aggregate W (rs.dropWhile isContinuation)
      else aggregate W rs := by
  show walkAux W (rs.length + 1) (r :: rs) = _
  simp only [walkAux]
  by_cases hr : rowIsTimeslot r
  · simp only [hr, if_true]
    rw [walkAux_eq_of_le W rs.length (rs.dropWhile isContinuation).length
      (rs.dropWhile isContinuation) (List.dropWhile_sublist _).length_le le_rfl]
    rfl
  · simp only [hr, if_false]
    rfl

lemma recordAt_cons (W : Nat) (r : List Cell) (rs : List (List Cell)) (i : Nat) :
    recordAt W (r :: rs) (i + 1) = recordAt W rs i := rfl

lemma contOf_cons (r : List Cell) (rs : List (List Cell)) (i : Nat) :
    contOf (r :: rs) (i + 1) = contOf rs i := rfl

lemma groupStarts_mem (rows : List (List Cell)) (i : Nat) :
    i ∈ groupStarts rows ↔
      i < rows.length ∧ rowIsTimeslot (rows.getD i []) = true := by
  induction rows generalizing i with
  | nil => simp [groupStarts]
  | cons r rs ih =>
    cases i with
    | zero =>
      by_cases hr : rowIsTimeslot r <;>
        simp [groupStarts, hr, List.mem_map]
    | succ j =>
      by_cases hr : rowIsTimeslot r <;>
        simp [groupStarts, hr, List.mem_map, ih j]

lemma groupStarts_append_cont :
    ∀ (l1 l2 : List (List Cell)), (∀ r ∈ l1, isContinuation r = true) →
      groupStarts (l1 ++ l2) = (groupStarts l2).map (· + l1.length) := by
  intro l1
  induction l1 with
  | nil =>
    intro l2 _
    simp
  | cons r l1 ih =>
    intro l2 h
    have hr : isContinuation r = true := h r (by simp)
    have hr' : ¬ rowIsTimeslot r = true := by
      simpa [isContinuation] using hr
    simp only [List.cons_append, groupStarts, List.append_eq]
    rw [if_neg hr', ih l2 (fun x hx => h x (by simp [hx])), List.map_map]
    apply List.map_congr_left
    intro a _
    simp [Function.comp, List.length_cons]
    omega

lemma recordAt_append (W : Nat) :
    ∀ (l1 l2 : List (List Cell)) (i : Nat),
      recordAt W (l1 ++ l2) (i + l1.length) = recordAt W l2 i := by
  intro l1
  induction l1 with
  | nil =>
    intro l2 i
    simp
  | cons r l1 ih =>
    intro l2 i
    have harith : i + (r :: l1).length = (i + l1.length) + 1 := by
      simp [List.length_cons]
      omega
    rw [harith, List.cons_append, recordAt_cons]
    exact ih l2 i

lemma walkAux_eq_groupRecords (W : Nat) :
    ∀ (fuel : Nat) (rows : List (List Cell)), rows.length ≤ fuel →
      walkAux W fuel rows = (groupStarts rows).map (recordAt W rows) := by
  intro fuel
  induction fuel with
  | zero =>
    intro rows h
    have : rows = [] := List.eq_nil_of_length_eq_zero (Nat.le_zero.mp h)
    subst this
    rfl
  | succ n ih =>
    intro rows h
    match rows with
    | [] => rfl
    | r :: rs =>
      have hrs : rs.length ≤ n := by simpa using h
      by_cases hr : rowIsTimeslot r
      · simp only [walkAux, hr, if_true, groupStarts]
        rw [ih (rs.dropWhile isContinuation)
          (le_trans (List.dropWhile_sublist _).length_le hrs)]
        rw [List.map_cons]
        congr 1
        rw [List.map_map]
        have h1 : (recordAt W (r :: rs)) ∘ (· + 1) = recordAt W rs :=
          funext fun i => recordAt_cons W r rs i
        rw [h1]
        have hsplit : rs = rs.takeWhile isContinuation ++ rs.dropWhile isContinuation :=
          (List.takeWhile_append_dropWhile _ _).symm
        have hcont : ∀ x ∈ rs.takeWhile isContinuation, isContinuation x = true :=
          fun x hx => List.mem_takeWhile_imp hx
        conv_rhs => rw [hsplit]
        rw [groupStarts_append_cont _ _ hcont, List.map_map]
        apply List.map_congr_left
        intro k _
        exact (recordAt_append W _ _ k).symm
      · simp only [walkAux, groupStarts]
        rw [if_neg hr, if_neg hr, ih rs hrs, List.map_map]
        have h1 : (recordAt W (r :: rs)) ∘ (· + 1) = recordAt W rs :=
          funext fun i => recordAt_cons W r rs i
        rw [h1]

lemma aggregate_eq_groupRecords (W : Nat) (rows : List (List Cell)) :
    aggregate W rows = (groupStarts rows).map (recordAt W rows) :=
  walkAux_eq_groupRecords W rows.length rows le_rfl

lemma groupStarts_length (rows : List (List Cell)) :
    (groupStarts rows).length = (rows.filter rowIsTimeslot).length := by
  induction rows with
  | nil => rfl
  | cons r rs ih =>
    by_cases hr : rowIsTimeslot r
    · simp [groupStarts, List.filter_cons, hr, ih]
    · simp [groupStarts, List.filter_cons, hr, ih]

lemma findStartRowAux_some :
    ∀ (k : Nat) (g : List (List Cell)) (i : Nat),
      findStartRowAux k g = some i →
      i < k ∧ i < g.length ∧ rowIsMarker (g.getD i []) = true ∧
        ∀ j, j < i → rowIsMarker (g.getD j []) = false := by
  intro k
  induction k with
  | zero =>
    intro g i h
    cases g <;> simp [findStartRowAux] at h
  | succ n ih =>
    intro g i h
    match g with
    | [] => simp [findStartRowAux] at h
    | r :: rs =>
      by_cases hr : rowIsMarker r
      · have hi : i = 0 := by
          simp [findStartRowAux, hr] at h
          omega
        subst hi
        exact ⟨Nat.succ_pos n, by simp, by simpa using hr,
          fun j hj => absurd hj (by omega)⟩
      · simp only [findStartRowAux, if_neg hr, Option.map_eq_some'] at h
        obtain ⟨a, ha, rfl⟩ := h
        obtain ⟨h1, h2, h3, h4⟩ := ih rs a ha
        refine ⟨by omega, by simp; omega, by simpa using h3, ?_⟩
        intro j hj
        cases j with
        | zero => simpa using (Bool.not_eq_true _).mp hr
        | succ j' => simpa using h4 j' (by omega)

lemma findStartRowAux_none :
    ∀ (k : Nat) (g : List (List Cell)),
      findStartRowAux k g = none →
      ∀ i, i < min k g.length → rowIsMarker (g.getD i []) = false := by
  intro k
  induction k with
  | zero =>
    intro g _ i hi
    omega
  | succ n ih =>
    intro g h i hi
    match g with
    | [] => simp at hi
    | r :: rs =>
      by_cases hr : rowIsMarker r
      · simp [findStartRowAux, hr] at h
      · simp only [findStartRowAux, if_neg hr] at h
        have hrs : findStartRowAux n rs = none := by
          cases hfs : findStartRowAux n rs with
          | none => rfl
          | some a => rw [hfs] at h; simp at h
        cases i with
        | zero => simpa using (Bool.not_eq_true _).mp hr
        | succ j =>
          have : j < min n rs.length := by simp at hi; omega
          simpa using ih rs hrs j this

lemma processSheet_none_of_no_marker (g : List (List Cell))
    (h : findStartRow g = none) : processSheet g = none := by
  simp [processSheet, h]

lemma processSheets_skip (g : List (List Cell)) (pre post : List (List (List Cell)))
    (h : processSheet g = none) :
    processSheets (pre ++ g :: post) = processSheets pre ++ processSheets post := by
  simp [processSheets, List.filterMap_append, List.filterMap_cons, h]

lemma pstrip_empty : pstrip "" = "" := by decide

lemma intercalate_singleton (v : String) : String.intercalate "\n" [v] = v := rfl

lemma collectCol_append (g1 g2 : List (List Cell)) (col : Nat) :
    collectCol (g1 ++ g2) col = collectCol g1 col ++ collectCol g2 col := by
  simp [collectCol, List.filterMap_append]

lemma intercalate_nil : String.intercalate "\n" [] = "" := rfl

lemma collectCol_cons (r : List Cell) (g : List (List Cell)) (col : Nat) :
    collectCol (r :: g) col =
      match cellStr (r.getD col Cell.blank) with
      | none => collectCol g col
      | some v =>
        if pstrip v = "" then collectCol g col else v :: collectCol g col := by
  rw [collectCol, List.filterMap_cons]
  cases cellStr (r.getD col Cell.blank) with
  | none => rfl
  | some v =>
    by_cases hv : pstrip v = ""
    · simp only [if_pos hv]
      rfl
    · simp only [if_neg hv]
      rfl

lemma collectCol_singleton (r : List Cell) (col : Nat) :
    collectCol [r] col =
      match cellStr (r.getD col Cell.blank) with
      | none => []
      | some v => if pstrip v = "" then [] else [v] := by
  rw [collectCol_cons]
  cases cellStr (r.getD col Cell.blank) with
  | none => rfl
  | some v =>
    by_cases hv : pstrip v = ""
    · simp only [if_pos hv]
      rfl
    · simp only [if_neg hv]
      rfl

lemma foldCol_group_split (c0 : List Cell) (rest : List (List Cell)) (col : Nat) :
    foldCol (c0 :: rest) col = appendFold (foldCol [c0] col) (collectCol rest col) := by
  have hs : collectCol (c0 :: rest) col = collectCol [c0] col ++ collectCol rest col :=
    collectCol_append [c0] rest col
  cases h : cellStr (c0.getD col Cell.blank) with
  | none =>
    have h0 : collectCol [c0] col = [] := by
      rw [collectCol_singleton, h]
    rw [foldCol, hs, h0, List.nil_append, foldCol, h0]
    simp [appendFold, intercalate_nil]
  | some v =>
    by_cases hv : pstrip v = ""
    · have h0 : collectCol [c0] col = [] := by
        rw [collectCol_singleton, h]
        simp only [if_pos hv]
      rw [foldCol, hs, h0, List.nil_append, foldCol, h0]
      simp [appendFold, intercalate_nil]
    · have h0 : collectCol [c0] col = [v] := by
        rw [collectCol_singleton, h]
        simp only [if_neg hv]
      have hvne : v ≠ "" := by
        intro hveq
        rw [hveq, pstrip_empty] at hv
        exact hv rfl
      rw [foldCol, hs, h0, foldCol, h0, intercalate_singleton, appendFold, if_neg hvne]
      rfl

lemma collectCol_eq_verbatimFilter (group : List (List Cell)) (col : Nat) :
    collectCol group col =
      (group.map fun r => (cellStr (r.getD col Cell.blank)).getD "").filter
        (fun v => !(pstrip v == "")) := by
  induction group with
  | nil => rfl
  | cons r g ih =>
    rw [collectCol_cons, List.map_cons, List.filter_cons]
    cases hc : cellStr (r.getD col Cell.blank) with
    | none =>
      simp [pstrip_empty, ih]
    | some v =>
      by_cases hv : pstrip v = ""
      · simp [hv, ih]
      · simp [hv, ih]

lemma foldCol_eq_verbatim (group : List (List Cell)) (col : Nat) :
    foldCol group col = foldColVerbatim group col := by
  rw [foldCol, foldColVerbatim, collectCol_eq_verbatimFilter]

lemma lt_nextIndex (g : List (List Cell)) (i : Nat) : i < nextIndex g i := by
  unfold nextIndex
  split <;> omega

lemma nextIndex_le (g : List (List Cell)) (i : Nat) (h : i < g.length) :
    nextIndex g i ≤ g.length := by
  unfold nextIndex
  have h1 : ((g.drop (i + 1)).takeWhile isContinuation).length ≤ (g.drop (i + 1)).length :=
    (List.takeWhile_sublist _).length_le
  have h2 : (g.drop (i + 1)).length = g.length - (i + 1) := List.length_drop _ _
  split <;> omega

lemma drop_length_takeWhile {α : Type} (p : α → Bool) :
    ∀ l : List α, l.drop ((l.takeWhile p).length) = l.dropWhile p := by
  intro l
  induction l with
  | nil => rfl
  | cons x xs ih =>
    by_cases hx : p x
    · simp [List.takeWhile_cons_of_pos hx, List.dropWhile_cons_of_pos hx, ih]
    · simp [List.takeWhile_cons_of_neg hx, List.dropWhile_cons_of_neg hx]

lemma take_length_takeWhile {α : Type} (p : α → Bool) :
    ∀ l : List α, l.take ((l.takeWhile p).length) = l.takeWhile p := by
  intro l
  induction l with
  | nil => rfl
  | cons x xs ih =>
    by_cases hx : p x
    · simp [List.takeWhile_cons_of_pos hx, ih]
    · simp [List.takeWhile_cons_of_neg hx]

lemma dropWhile_head_false {α : Type} (p : α → Bool) :
    ∀ (l : List α) (x : α) (t : List α), l.dropWhile p = x :: t → p x = false := by
  intro l
  induction l with
  | nil =>
    intro x t h
    simp [List.dropWhile] at h
  | cons a as ih =>
    intro x t h
    by_cases ha : p a
    · rw [List.dropWhile_cons_of_pos ha] at h
      exact ih x t h
    · rw [List.dropWhile_cons_of_neg ha] at h
      cases h
      exact (Bool.not_eq_true _).mp ha

lemma groupStarts_takeWhile_le :
    ∀ (rows : List (List Cell)) (i : Nat), i ∈ groupStarts rows →
      (rows.takeWhile isContinuation).length ≤ i := by
  intro rows
  induction rows with
  | nil =>
    intro i h
    simp [groupStarts] at h
  | cons r rs ih =>
    intro i h
    by_cases hr : rowIsTimeslot r
    · have h0 : isContinuation r = false := by
        simp [isContinuation, hr]
      simp [List.takeWhile_cons_of_neg (by simp [h0] : ¬ isContinuation r = true)]
    · have hcont : isContinuation r = true := by
        simp [isContinuation, hr]
      rw [groupStarts, if_neg hr] at h
      obtain ⟨a, ha, rfl⟩ := List.mem_map.mp h
      have := ih a ha
      rw [List.takeWhile_cons_of_pos hcont]
      simp
      omega

lemma groupStarts_spans_pairwise :
    ∀ rows : List (List Cell),
      List.Pairwise (fun i j => i + 1 + (contOf rows i).length ≤ j)
        (groupStarts rows) := by
  intro rows
  induction rows with
  | nil => simp [groupStarts]
  | cons r rs ih =>
    have hshift : List.Pairwise
        (fun i j => i + 1 + (contOf (r :: rs) i).length ≤ j)
        ((groupStarts rs).map (· + 1)) := by
      rw [List.pairwise_map]
      refine ih.imp ?_
      intro a b hab
      rw [contOf_cons]
      omega
    by_cases hr : rowIsTimeslot r
    · rw [groupStarts, if_pos hr]
      refine List.pairwise_cons.mpr ⟨?_, hshift⟩
      intro j hj
      obtain ⟨a, ha, rfl⟩ := List.mem_map.mp hj
      have h1 := groupStarts_takeWhile_le rs a ha
      have h2 : contOf (r :: rs) 0 = rs.takeWhile isContinuation := rfl
      rw [h2]
      omega
    · rw [groupStarts, if_neg hr]
      exact hshift

lemma span_end_boundary (rows : List (List Cell)) (i : Nat)
    (h : i ∈ groupStarts rows) :
    i + 1 + (contOf rows i).length = rows.length ∨
      rowIsTimeslot (rows.getD (i + 1 + (contOf rows i).length) []) = true := by
  have hdrop : rows.drop (i + 1 + (contOf rows i).length) =
      (rows.drop (i + 1)).dropWhile isContinuation := by
    rw [← List.drop_drop, contOf]
    exact drop_length_takeWhile isContinuation (rows.drop (i + 1))
  cases hcase : (rows.drop (i + 1)).dropWhile isContinuation with
  | nil =>
    left
    have hnil : rows.drop (i + 1 + (contOf rows i).length) = [] := by
      rw [hdrop, hcase]
    have hge : rows.length ≤ i + 1 + (contOf rows i).length :=
      List.drop_eq_nil_iff.mp hnil
    have hi : i < rows.length := ((groupStarts_mem rows i).mp h).1
    have hcl : (contOf rows i).length ≤ (rows.drop (i + 1)).length :=
      (List.takeWhile_sublist _).length_le
    have hlen := List.length_drop (i + 1) rows
    omega
  | cons x t =>
    right
    have hx : isContinuation x = false :=
      dropWhile_head_false isContinuation (rows.drop (i + 1)) x t hcase
    have h0 : rows[i + 1 + (contOf rows i).length]? = some x := by
      have h1 : (rows.drop (i + 1 + (contOf rows i).length))[0]? = some x := by
        rw [hdrop, hcase]
        simp
      rw [List.getElem?_drop] at h1
      simpa using h1
    have hgetD : rows.getD (i + 1 + (contOf rows i).length) [] = x := by
      simp [List.getD_eq_getElem?_getD, h0]
    rw [hgetD]
    simpa [isContinuation] using hx

lemma rowIsTimeslot_recToRow (rec : Record) :
    rowIsTimeslot (recToRow rec) = matchesTimePattern rec.time := rfl

lemma range'_map_eq_of_getD :
    ∀ (days : List String) (start : Nat) (f : Nat → String),
      (∀ i, i < days.length → f (start + i) = days.getD i "") →
      (List.range' start days.length).map f = days := by
  intro days
  induction days with
  | nil =>
    intro start f _
    rfl
  | cons d ds ih =>
    intro start f h
    rw [List.length_cons, List.range'_succ, List.map_cons]
    have h0 : f start = d := by
      have := h 0 (by simp)
      simpa using this
    rw [h0]
    congr 1
    apply ih (start + 1) f
    intro i hi
    have := h (i + 1) (by simp; omega)
    have harith : start + (i + 1) = start + 1 + i := by omega
    rw [harith] at this
    simpa using this

lemma recToRow_getD_day (rec : Record) (i : Nat) (hi : i < rec.days.length) :
    (recToRow rec).getD (2 + i) Cell.blank = Cell.text (rec.days.getD i "") := by
  have harith : 2 + i = (i + 1) + 1 := by omega
  rw [harith]
  show (rec.days.map Cell.text).getD i Cell.blank = Cell.text (rec.days.getD i "")
  rw [List.getD_eq_getElem?_getD, List.getElem?_map, List.getElem?_eq_getElem hi]
  rw [List.getD_eq_getElem?_getD, List.getElem?_eq_getElem hi]
  rfl

lemma foldCol_recToRow_day (rec : Record) (i : Nat) (hi : i < rec.days.length)
    (hd : rec.days.getD i "" = "" ∨ pstrip (rec.days.getD i "") ≠ "") :
    foldCol [recToRow rec] (2 + i) = rec.days.getD i "" := by
  rw [foldCol, collectCol_singleton, recToRow_getD_day rec i hi]
  show String.intercalate "\n"
      (if pstrip (rec.days.getD i "") = "" then [] else [rec.days.getD i ""]) = _
  cases hd with
  | inl hempty =>
    rw [hempty, pstrip_empty, if_pos rfl]
    rfl
  | inr hne =>
    rw [if_neg hne, intercalate_singleton]

lemma mkRecord_recToRow (W : Nat) (rec : Record)
    (hp : rec.period ≠ Cell.blank)
    (hl : rec.days.length + 2 = W)
    (hd : ∀ d ∈ rec.days, d = "" ∨ pstrip d ≠ "") :
    mkRecord W (recToRow rec) [] = rec := by
  have hW : W - 2 = rec.days.length := by omega
  have hper : periodOf (recToRow rec) = rec.period := by
    rw [periodOf]
    show (match rec.period with
      | Cell.blank => Cell.text ""
      | c => c) = rec.period
    cases hc : rec.period with
    | blank => exact absurd hc hp
    | text s => rfl
    | num s => rfl
  have htime : timeTextOf (recToRow rec) = rec.time := rfl
  have hdays : (List.range' 2 (W - 2)).map (foldCol [recToRow rec]) = rec.days := by
    rw [hW]
    apply range'_map_eq_of_getD
    intro i hi
    apply foldCol_recToRow_day rec i hi
    have hmem : rec.days.getD i "" ∈ rec.days := by
      rw [List.getD_eq_getElem?_getD, List.getElem?_eq_getElem hi]
      exact List.getElem_mem hi
    exact hd _ hmem
  rw [mkRecord]
  rw [hper, htime]
  rw [Record.mk.injEq]
  exact ⟨rfl, rfl, hdays⟩

lemma aggregate_recToRow (W : Nat) :
    ∀ (t : List Record),
      (∀ rec ∈ t, rec.period ≠ Cell.blank) →
      (∀ rec ∈ t, matchesTimePattern rec.time = true) →
      (∀ rec ∈ t, rec.days.length + 2 = W) →
      (∀ rec ∈ t, ∀ d ∈ rec.days, d = "" ∨ pstrip d ≠ "") →
      aggregate W (t.map recToRow) = t := by
  intro t
  induction t with
  | nil =>
    intro _ _ _ _
    rfl
  | cons rec rest ih =>
    intro h1 h2 h3 h4
    rw [List.map_cons, aggregate_cons]
    have hts : rowIsTimeslot (recToRow rec) = true := by
      rw [rowIsTimeslot_recToRow]
      exact h2 rec (by simp)
    rw [if_pos hts]
    have htake : (rest.map recToRow).takeWhile isContinuation = [] := by
      cases hrest : rest with
      | nil => rfl
      | cons rec2 rest2 =>
        rw [List.map_cons]
        apply List.takeWhile_cons_of_neg
        have : rowIsTimeslot (recToRow rec2) = true := by
          rw [rowIsTimeslot_recToRow]
          exact h2 rec2 (by simp [hrest])
        simp [isContinuation, this]
    have hdrop : (rest.map recToRow).dropWhile isContinuation = rest.map recToRow := by
      cases hrest : rest with
      | nil => rfl
      | cons rec2 rest2 =>
        rw [List.map_cons]
        apply List.dropWhile_cons_of_neg
        have : rowIsTimeslot (recToRow rec2) = true := by
          rw [rowIsTimeslot_recToRow]
          exact h2 rec2 (by simp [hrest])
        simp [isContinuation, this]
    rw [htake, hdrop]
    congr 1
    · exact mkRecord_recToRow W rec (h1 rec (by simp)) (h3 rec (by simp))
        (h4 rec (by simp))
    · exact ih (fun r hr => h1 r (by simp [hr])) (fun r hr => h2 r (by simp [hr]))
        (fun r hr => h3 r (by simp [hr])) (fun r hr => h4 r (by simp [hr]))

/-- Claim C1: under the time-pattern policy, the walk over the rows below the
header starts a new logical period exactly at the rows whose time-column cell
is a string matching the HH:MM-HH:MM pattern, every immediately following
non-matching row is folded as a continuation row of that same period, and
rows lying before any pattern-matching row appear in no group. -/
theorem timePattern_grouping (W : Nat) (rows : List (List Cell)) :
    aggregate W rows = (groupStarts rows).map (recordAt W rows) ∧
    ∀ i, i ∈ groupStarts rows ↔
      (i < rows.length ∧ rowIsTimeslot (rows.getD i []) = true) :=
  ⟨aggregate_eq_groupRecords W rows, fun i => groupStarts_mem rows i⟩

/-- Claim C2, counterexample: for a single-row period whose Monday cell is
" Math ", the code folds the verbatim text " Math ", while the claim demands
the trimmed text "Math" (the trimmed fold is shown alongside). -/
theorem folded_value_not_trimmed :
    aggregate 3 [[Cell.text "3", Cell.text "10:00-10:30", Cell.text " Math "]] =
      [{ period := Cell.text "3", time := "10:00-10:30", days := [" Math "] }] ∧
    foldColTrimmed [[Cell.text "3", Cell.text "10:00-10:30", Cell.text " Math "]] 2 =
      "Math" ∧
    (" Math " : String) ≠ "Math" :=
  ⟨by decide, by decide, by decide⟩

/-- Claim C2, amended: the folded value of each day column is the verbatim
(untrimmed) text of the cells whose whitespace-trimmed text is non-empty,
across the group's rows in order, joined with the newline separator; every
record carries exactly one string per day column, and a column whose cells
are all empty or whitespace-only folds to the empty string, never an absent
field or a placeholder. -/
theorem folding_joins_verbatim_nonblank (W : Nat) (prim : List Cell)
    (cont : List (List Cell)) (col : Nat) :
    (mkRecord W prim cont).days =
      (List.range' 2 (W - 2)).map (foldColVerbatim (prim :: cont)) ∧
    (mkRecord W prim cont).days.length = W - 2 ∧
    ((∀ r ∈ prim :: cont, pstrip ((cellStr (r.getD col Cell.blank)).getD "") = "") →
      foldCol (prim :: cont) col = "") := by
  refine ⟨?_, ?_, ?_⟩
  · show (List.range' 2 (W - 2)).map (foldCol (prim :: cont)) = _
    apply List.map_congr_left
    intro a _
    exact foldCol_eq_verbatim _ a
  · simp [mkRecord]
  · intro h
    rw [foldCol, collectCol_eq_verbatimFilter]
    have hnil : ((prim :: cont).map
        fun r => (cellStr (r.getD col Cell.blank)).getD "").filter
          (fun v => !(pstrip v == "")) = [] := by
      apply List.filter_eq_nil_iff.mpr
      intro v hv
      obtain ⟨r, hr, rfl⟩ := List.mem_map.mp hv
      show ¬(!(pstrip ((cellStr (r.getD col Cell.blank)).getD "") == "")) = true
      rw [h r hr]
      decide
    rw [hnil]
    rfl

/-- Witness for the amended claim C2 at a concrete group of blank cells. -/
theorem folding_joins_verbatim_nonblank_witness :
    foldCol [[Cell.blank]] 2 = "" :=
  (folding_joins_verbatim_nonblank 3 [Cell.blank] [] 2).2.2 (by decide)

/-- Claim C3: the locator inspects at most the first 20 rows of column 0; a
returned header row lies inside the scan window, carries the marker token,
and is the first row that does; when no scanned row matches, the sheet is
skipped — it contributes nothing to the output, while the sheets around it
are still processed in order. -/
theorem locator_scan_and_skip (g : List (List Cell))
    (pre post : List (List (List Cell))) :
    (∀ i, findStartRow g = some i →
      i < 20 ∧ i < g.length ∧ rowIsMarker (g.getD i []) = true ∧
        ∀ j, j < i → rowIsMarker (g.getD j []) = false) ∧
    (findStartRow g = none →
      (∀ i, i < min 20 g.length → rowIsMarker (g.getD i []) = false) ∧
      processSheets (pre ++ g :: post) = processSheets pre ++ processSheets post) := by
  constructor
  · intro i h
    exact findStartRowAux_some 20 g i h
  · intro h
    exact ⟨findStartRowAux_none 20 g h,
      processSheets_skip g pre post (processSheet_none_of_no_marker g h)⟩

/-- Witness for claim C3: a concrete located sheet and a concrete skipped
sheet. -/
theorem locator_scan_and_skip_witness :
    (1 < 20 ∧ 1 < witnessGrid.length ∧ rowIsMarker (witnessGrid.getD 1 []) = true ∧
      rowIsMarker (witnessGrid.getD 0 []) = false) ∧
    processSheets ([witnessGrid] ++ noMarkerGrid :: []) =
      processSheets [witnessGrid] ++ processSheets [] := by
  constructor
  · have h := (locator_scan_and_skip witnessGrid [] []).1 1 (by decide)
    exact ⟨h.1, h.2.1, h.2.2.1, h.2.2.2 0 (by decide)⟩
  · exact ((locator_scan_and_skip noMarkerGrid [witnessGrid] []).2 (by decide)).2

/-- Claim C4, counterexample: on the spec's worked example the record is not
the hyphen-joined one the claim states. -/
theorem example_record_not_hyphen_joined :
    aggregate 7 [examplePrimRow, exampleContRow] ≠
      [{ period := Cell.text "3", time := "10:00-10:30",
         days := ["Math-Extra", "", "Art", "", "PE"] }] := by
  decide

/-- Claim C4, amended: the worked example yields the record with period "3"
and time "10:00-10:30" taken from the primary row only, Monday folded as
"Math\nExtra" — the two entries joined with the newline separator the code
uses, not a hyphen — and the remaining days "", "Art", "", "PE". -/
theorem example_record_newline_joined :
    aggregate 7 [examplePrimRow, exampleContRow] =
      [{ period := Cell.text "3", time := "10:00-10:30",
         days := ["Math\nExtra", "", "Art", "", "PE"] }] := by
  decide

/-- Claim C5, counterexample: two identical timeslot rows yield two records
sharing both the period value and the time value — the duplicate
(period, time) pair is appended as a second record, not merged. -/
theorem duplicate_period_time_appended :
    (aggregate 3 [dupRow, dupRow]).length = 2 ∧
    ((aggregate 3 [dupRow, dupRow]).getD 0 ⟨Cell.blank, "", []⟩).period =
      ((aggregate 3 [dupRow, dupRow]).getD 1 ⟨Cell.blank, "", []⟩).period ∧
    ((aggregate 3 [dupRow, dupRow]).getD 0 ⟨Cell.blank, "", []⟩).time =
      ((aggregate 3 [dupRow, dupRow]).getD 1 ⟨Cell.blank, "", []⟩).time :=
  ⟨by decide, by decide, by decide⟩

lemma groupStarts_eq_filter_range :
    ∀ rows : List (List Cell),
      groupStarts rows =
        (List.range rows.length).filter
          (fun i => rowIsTimeslot (rows.getD i [])) := by
  intro rows
  induction rows with
  | nil => rfl
  | cons r rs ih =>
    rw [List.length_cons, List.range_succ_eq_map, List.filter_cons]
    have hpred : (fun i => rowIsTimeslot ((r :: rs).getD i [])) ∘ Nat.succ =
        fun i => rowIsTimeslot (rs.getD i []) := rfl
    rw [List.filter_map, hpred, ← ih]
    have hmap : List.map Nat.succ (groupStarts rs) = (groupStarts rs).map (· + 1) := rfl
    by_cases hr : rowIsTimeslot r
    · rw [groupStarts, if_pos hr, if_pos (by simpa using hr), hmap]
    · rw [groupStarts, if_neg hr, if_neg (by simpa using hr), hmap]

/-- Claim C5, amended: the table is exactly the list of records built from
each pattern-matching row together with its continuation run, taken in
increasing row order — so rows carrying a duplicate (period, time) pair each
contribute their own record, appended and never merged, and the record count
equals the timeslot-row count. -/
theorem duplicates_appended_not_merged (W : Nat) (rows : List (List Cell)) :
    aggregate W rows =
      ((List.range rows.length).filter
        (fun i => rowIsTimeslot (rows.getD i []))).map (recordAt W rows) ∧
    (aggregate W rows).length = (rows.filter rowIsTimeslot).length := by
  constructor
  · rw [aggregate_eq_groupRecords, groupStarts_eq_filter_range]
  · rw [aggregate_eq_groupRecords, List.length_map, groupStarts_length]

/-- Claim C6, counterexample: the code hands the sheet name to the output
workbook unchanged (source line 53); on the spec's example name the output
title differs from the sanitized, truncated name the claim requires. -/
theorem sheet_title_not_sanitized :
    outputSheetTitle "Mr. A/B:Teacher*[X]" ≠
      sanitizeSpecTitle "Mr. A/B:Teacher*[X]" := by
  decide

/-- Claim C6, amended: the output sheet title is the input sheet name
unchanged — no characters are removed and no truncation occurs. -/
theorem sheet_title_unchanged (name : String) : outputSheetTitle name = name := rfl

/-- Claim C7: per-day folding is associative over row order: folding the
group [r0, r1, r2] for one day column yields the same joined string as
folding [r0] alone and then appending the non-empty values collected from
[r1, r2] in order with the same separator. -/
theorem folding_associative (r0 r1 r2 : List Cell) (col : Nat) :
    foldCol [r0, r1, r2] col =
      appendFold (foldCol [r0] col) (collectCol [r1, r2] col) :=
  foldCol_group_split r0 [r1, r2] col

/-- Claim C8, counterexample: a table that is normalized in the claim's
structural sense — a single row whose time cell matches the pattern, with no
continuation rows — but whose Monday cell is the whitespace-only string " "
is changed by re-aggregation: the whitespace-only cell collapses to "". -/
theorem renormalize_changes_whitespace_cell :
    matchesTimePattern wsRecord.time = true ∧
    aggregate 3 ([wsRecord].map recToRow) ≠ [wsRecord] :=
  ⟨by decide, by decide⟩

/-- Claim C8, amended: re-running the aggregation on an already-normalized
table — one physical row per record, every time cell matching the pattern,
no continuation rows, periods non-blank, row widths equal to the grid width,
and every day cell either empty or with non-empty trimmed content (the
whitespace-only cells of the counterexample being the one exclusion) —
returns the table unchanged. -/
theorem renormalization_idempotent (W : Nat) (t : List Record)
    (hp : ∀ rec ∈ t, rec.period ≠ Cell.blank)
    (ht : ∀ rec ∈ t, matchesTimePattern rec.time = true)
    (hw : ∀ rec ∈ t, rec.days.length + 2 = W)
    (hd : ∀ rec ∈ t, ∀ d ∈ rec.days, d = "" ∨ pstrip d ≠ "") :
    aggregate W (t.map recToRow) = t :=
  aggregate_recToRow W t hp ht hw hd

/-- Witness for the amended claim C8 at a concrete one-record table. -/
theorem renormalization_idempotent_witness :
    aggregate 3
        ([{ period := Cell.text "1", time := "09:00-09:30", days := ["A"] }].map
          recToRow) =
      [{ period := Cell.text "1", time := "09:00-09:30", days := ["A"] }] :=
  renormalization_idempotent 3
    [{ period := Cell.text "1", time := "09:00-09:30", days := ["A"] }]
    (by decide) (by decide) (by decide) (by decide)

/-- Claim C9: the outer walk always advances — the index the loop moves to
next is strictly greater than the current one (by exactly one on a
non-matching row, and past the whole continuation run on a matching row)
and never overshoots the grid; consequently fuel equal to the number of rows
is enough: any larger fuel computes the same aggregation, so the walk ends
after finitely many steps. -/
theorem walk_terminates :
    (∀ (g : List (List Cell)) (i : Nat), i < nextIndex g i) ∧
    (∀ (g : List (List Cell)) (i : Nat), i < g.length → nextIndex g i ≤ g.length) ∧
    (∀ (W fuel : Nat) (rows : List (List Cell)), rows.length ≤ fuel →
      walkAux W fuel rows = aggregate W rows) := by
  refine ⟨lt_nextIndex, nextIndex_le, ?_⟩
  intro W fuel rows h
  exact walkAux_eq_of_le W fuel rows.length rows h le_rfl

/-- Witness for claim C9 at a concrete grid. -/
theorem walk_terminates_witness :
    0 < nextIndex [dupRow] 0 ∧ nextIndex [dupRow] 0 ≤ [dupRow].length ∧
      walkAux 3 5 [dupRow] = aggregate 3 [dupRow] :=
  ⟨walk_terminates.1 [dupRow] 0,
   walk_terminates.2.1 [dupRow] 0 (by decide),
   walk_terminates.2.2 3 5 [dupRow] (by decide)⟩

/-- Claim C10: each record folds exactly the contiguous row range of its
span — from its primary row up to just before the next pattern-matching row
(or the end of the grid) — the spans of distinct records are pairwise
disjoint, and therefore every physical row below the header contributes its
day-column content to at most one record. -/
theorem group_spans_disjoint (W : Nat) (rows : List (List Cell)) :
    aggregate W rows = (groupSpans rows).map
      (fun p => mkRecord W (rows.getD p.1 [])
        ((rows.drop (p.1 + 1)).take (p.2 - p.1 - 1))) ∧
    List.Pairwise (fun p q => p.2 ≤ q.1) (groupSpans rows) ∧
    ∀ p ∈ groupSpans rows,
      p.1 < p.2 ∧
      (p.2 = rows.length ∨ rowIsTimeslot (rows.getD p.2 []) = true) := by
  refine ⟨?_, ?_, ?_⟩
  · rw [aggregate_eq_groupRecords, groupSpans, List.map_map]
    apply List.map_congr_left
    intro i _
    show recordAt W rows i = mkRecord W (rows.getD i [])
      ((rows.drop (i + 1)).take (i + 1 + (contOf rows i).length - i - 1))
    rw [recordAt]
    congr 1
    have harith : i + 1 + (contOf rows i).length - i - 1 = (contOf rows i).length := by
      omega
    rw [harith, contOf]
    exact (take_length_takeWhile isContinuation (rows.drop (i + 1))).symm
  · rw [groupSpans, List.pairwise_map]
    exact (groupStarts_spans_pairwise rows).imp (fun h => h)
  · intro p hp
    obtain ⟨i, hi, rfl⟩ := List.mem_map.mp hp
    constructor
    · show i < i + 1 + (contOf rows i).length
      omega
    · exact span_end_boundary rows i hi

/-- Witness for claim C10 at a concrete one-row grid. -/
theorem group_spans_disjoint_witness :
    ((0 : Nat), (1 : Nat)).1 < ((0 : Nat), (1 : Nat)).2 ∧
      (((0 : Nat), (1 : Nat)).2 = [dupRow].length ∨
        rowIsTimeslot ([dupRow].getD ((0 : Nat), (1 : Nat)).2 []) = true) :=
  (group_spans_disjoint 3 [dupRow]).2.2 (0, 1) (by decide)
